import Mathlib

/-!
Verification development for the x2doc converter (`src/main/document.py`,
`src/main/tasks.py`): a shallow embedding of the element model, the
tree-format (XML) codec, the flat-format reconstruction algorithm
(`Chapter.from_word` / `Document.from_word`), the flattening algorithm
(`*.to_word`) and the task wrapper `create_word_from_x2doc`, together with
theorems settling the specification claims.

Modelling conventions:
* Python strings are Lean `String`s; `str.strip()`, `str.startswith`,
  `str.split()`, `int()` and `float()` are modelled by executable
  character-list functions (`pyStrip`, `pyStartsWith`, `styleTokens`,
  `pyParseInt`, `pyParseFloat`).
* Machine reals used in the width computation are modelled by `ℚ`
  (the computation `(w / 100) * 15` is exact in binary floating point for
  the values the claims exercise, so `ℚ` is faithful there).
* Python exceptions are modelled by `Option`: `none` means the operation
  raised and the exception propagates.
* The unbounded `while` loops in `Chapter.from_word` and
  `Document.from_word` are modelled with an explicit fuel parameter;
  `none` means the loop has not finished within the given fuel, and
  divergence is `none` for every fuel.
-/

namespace X2doc

/-- Model of Python `str.strip()`: drop whitespace from both ends. -/
def pyStrip (s : String) : String :=
  ⟨((s.data.dropWhile Char.isWhitespace).reverse.dropWhile Char.isWhitespace).reverse⟩

/-- Model of Python `str.startswith(pre)`. -/
def pyStartsWith (s pre : String) : Bool :=
  pre.data.isPrefixOf s.data

/-- Digit value of an ASCII digit character. -/
def digitVal (c : Char) : Nat := c.toNat - 48

/-- Tail of Python `int()` digit parsing: digits, with single underscores
allowed between digits (PEP 515). `acc` is the value of the digits read
so far. -/
def pyIntTail (acc : Nat) : List Char → Option Nat
  | [] => some acc
  | c :: rest =>
    if c.isDigit then pyIntTail (10 * acc + digitVal c) rest
    else if c = '_' then
      match rest with
      | [] => none
      | d :: rest' => if d.isDigit then pyIntTail (10 * acc + digitVal d) rest' else none
    else none

/-- Model of Python `int(token)` for the whitespace-free tokens produced by
`str.split()`: optional sign followed by a nonempty digit sequence
(single underscores between digits allowed). `none` models `ValueError`. -/
def pyParseInt (s : String) : Option Int :=
  match s.toList with
  | '+' :: c :: rest => if c.isDigit then (pyIntTail (digitVal c) rest).map Int.ofNat else none
  | '-' :: c :: rest =>
      if c.isDigit then (pyIntTail (digitVal c) rest).map (fun n => -(n : Int)) else none
  | c :: rest => if c.isDigit then (pyIntTail (digitVal c) rest).map Int.ofNat else none
  | [] => none

/-- Worker for `styleTokens`: scan the characters, accumulating the
current token (reversed) and emitting it at whitespace boundaries. -/
def tokensAux : List Char → List Char → List String
  | [], cur => if cur = [] then [] else [⟨cur.reverse⟩]
  | c :: rest, cur =>
    if c.isWhitespace then
      if cur = [] then tokensAux rest [] else ⟨cur.reverse⟩ :: tokensAux rest []
    else tokensAux rest (c :: cur)

/-- Model of Python `style.name.split()`: split on whitespace runs,
discarding empty pieces. -/
def styleTokens (s : String) : List String :=
  tokensAux s.data []

/-- `int(block.style.name.split()[-1])` from `Chapter.from_word`
(document.py line 310): `none` models both the `IndexError` (no token)
and the `ValueError` (non-numeric token) that line 311 catches. -/
def headingLevel? (style : String) : Option Int :=
  (styleTokens style).getLast? >>= pyParseInt

/-- Numeric value of a digit list (most significant first). -/
def digitsVal (ds : List Char) : Nat := ds.foldl (fun a c => 10 * a + digitVal c) 0

/-- Exponent/terminator tail of Python `float()` parsing: either the end of
the string or `e`/`E`, an optional sign and a nonempty digit run. -/
def pyFloatExp (mant : ℚ) : List Char → Option ℚ
  | [] => some mant
  | c :: rest =>
    if c = 'e' ∨ c = 'E' then
      match rest with
      | '+' :: ds =>
        if ds ≠ [] ∧ ds.all Char.isDigit then some (mant * 10 ^ digitsVal ds) else none
      | '-' :: ds =>
        if ds ≠ [] ∧ ds.all Char.isDigit then some (mant / 10 ^ digitsVal ds) else none
      | ds =>
        if ds ≠ [] ∧ ds.all Char.isDigit then some (mant * 10 ^ digitsVal ds) else none
    else none

/-- Model of Python `float(width)` from `Table.to_word` (document.py line
155) on decimal literals: optional sign, integer part, optional fractional
part, optional exponent. `none` models `ValueError`. (The `inf`/`nan`
spellings and PEP 515 underscores are outside what the program's width
strings use and are mapped to `none`.) -/
def pyParseFloat (s : String) : Option ℚ :=
  let core : List Char → Option ℚ := fun cs =>
    let ip := cs.takeWhile Char.isDigit
    let rest := cs.dropWhile Char.isDigit
    match rest with
    | '.' :: r =>
      let fp := r.takeWhile Char.isDigit
      let rest' := r.dropWhile Char.isDigit
      if ip = [] ∧ fp = [] then none
      else pyFloatExp ((digitsVal ip : ℚ) + (digitsVal fp : ℚ) / 10 ^ fp.length) rest'
    | _ => if ip = [] then none else pyFloatExp (digitsVal ip : ℚ) rest
  match s.toList with
  | '+' :: cs => core cs
  | '-' :: cs => (core cs).map Neg.neg
  | cs => core cs

/-- `TOTAL_TABLE_WIDTH_CM` (document.py line 25): total table width budget
in centimetres. -/
def TOTAL_TABLE_WIDTH_CM : ℚ := 15

/-- In-memory document element (document.py classes `Paragraph`, `Table`,
`Chapter`).
* `para text`: a `Paragraph`; `text` is the stored (stripped) text.
* `table columns rows`: a `Table`; each column is
  `(name, width)` where both components are optional strings, because
  `Table.from_xml` stores `col.text` (which is `None` for an empty
  element) and the optional `width` attribute unchanged.
* `chapter title id_ elements`: a `Chapter` with its ordered children. -/
inductive Elem where
  | para (text : String)
  | table (columns : List (Option String × Option String)) (rows : List (List String))
  | chapter (title : String) (id_ : String) (elements : List Elem)

mutual

/-- Decidable equality for document elements. -/
def Elem.decEq : (a b : Elem) → Decidable (a = b)
  | .para a, .para b =>
    if h : a = b then .isTrue (by rw [h]) else .isFalse (by simpa using h)
  | .para _, .table _ _ => .isFalse (by simp)
  | .para _, .chapter _ _ _ => .isFalse (by simp)
  | .table _ _, .para _ => .isFalse (by simp)
  | .table c1 r1, .table c2 r2 =>
    if h : c1 = c2 ∧ r1 = r2 then
      .isTrue (by rw [h.1, h.2])
    else .isFalse (by simpa using h)
  | .table _ _, .chapter _ _ _ => .isFalse (by simp)
  | .chapter _ _ _, .para _ => .isFalse (by simp)
  | .chapter _ _ _, .table _ _ => .isFalse (by simp)
  | .chapter t1 i1 e1, .chapter t2 i2 e2 =>
    match Elem.decEqList e1 e2 with
    | .isTrue he =>
      if h : t1 = t2 ∧ i1 = i2 then .isTrue (by rw [h.1, h.2, he])
      else .isFalse (by simpa [he] using h)
    | .isFalse he => .isFalse (by simpa using fun _ _ => he)

/-- Decidable equality for lists of document elements. -/
def Elem.decEqList : (a b : List Elem) → Decidable (a = b)
  | [], [] => .isTrue rfl
  | [], _ :: _ => .isFalse (by simp)
  | _ :: _, [] => .isFalse (by simp)
  | a :: as, b :: bs =>
    match Elem.decEq a b, Elem.decEqList as bs with
    | .isTrue h1, .isTrue h2 => .isTrue (by rw [h1, h2])
    | .isTrue _, .isFalse h2 => .isFalse (by simpa using fun _ => h2)
    | .isFalse h1, _ => .isFalse (by simpa using fun h _ => h1 h)

end

instance : DecidableEq Elem := Elem.decEq

/-- A `Chapter` value as handed around by the flat reconstruction
(`Chapter.from_word` builds `Chapter(title, id_, elements)` records). -/
structure Chapter where
  title : String
  id_ : String
  elements : List Elem
deriving DecidableEq

/-- A chapter record viewed as a document element. -/
def Chapter.toElem (c : Chapter) : Elem := .chapter c.title c.id_ c.elements

/-- A `Document` (document.py class `Document`): a title and the ordered
top-level elements. -/
structure Document where
  title : String
  elements : List Elem
deriving DecidableEq

/-- Is this element a chapter? -/
def Elem.isChapter : Elem → Bool
  | .chapter _ _ _ => true
  | _ => false

/-- Children of a chapter element (empty for leaves). -/
def Elem.children : Elem → List Elem
  | .chapter _ _ els => els
  | _ => []

/-- An XML element tree, the model of `xml.etree.ElementTree.Element`:
a tag, an attribute list, optional text, and ordered children. -/
inductive Xml where
  | elem (tag : String) (attrs : List (String × String)) (text : Option String)
      (children : List Xml)

/-- The tag of an XML element. -/
def Xml.tag : Xml → String
  | .elem t _ _ _ => t

/-- The attribute list of an XML element. -/
def Xml.attrs : Xml → List (String × String)
  | .elem _ a _ _ => a

/-- The text of an XML element. -/
def Xml.text : Xml → Option String
  | .elem _ _ tx _ => tx

/-- The children of an XML element. -/
def Xml.children : Xml → List Xml
  | .elem _ _ _ cs => cs

/-- `element.attrib.get(key)`: the value of the attribute, if present. -/
def Xml.attr? (x : Xml) (key : String) : Option String :=
  x.attrs.lookup key

/-- `element.find(tag)`: the first direct child with the given tag. -/
def Xml.find? (x : Xml) (t : String) : Option Xml :=
  x.children.find? (fun c => c.tag == t)

/-- `element.findall(tag)`: all direct children with the given tag,
in document order. -/
def Xml.findall (x : Xml) (t : String) : List Xml :=
  x.children.filter (fun c => c.tag == t)

/-- One `column` element of `Table.to_xml` (document.py lines 177-180):
the name as text and, when the width string is truthy (present and
nonempty — `if width:`), a `width` attribute. -/
def columnToXml (nw : Option String × Option String) : Xml :=
  .elem "column"
    (match nw.2 with
     | none => []
     | some w => if w = "" then [] else [("width", w)])
    nw.1 []

/-- `Table.to_xml` (document.py lines 170-190), the `columns` child. -/
def columnsToXml (columns : List (Option String × Option String)) : Xml :=
  .elem "columns" [] none (columns.map columnToXml)

/-- One `cell` element of `Table.to_xml` (text = cell value). -/
def cellToXml (c : String) : Xml :=
  .elem "cell" [] (some c) []

/-- One `row` element of `Table.to_xml`. -/
def rowToXml (r : List String) : Xml :=
  .elem "row" [] none (r.map cellToXml)

/-- `Table.to_xml`, the `rows` child: one `row` element per row, with one
`cell` element per cell. -/
def rowsToXml (rows : List (List String)) : Xml :=
  .elem "rows" [] none (rows.map rowToXml)

mutual

/-- `Paragraph.to_xml`, `Table.to_xml` and `Chapter.to_xml` (document.py
lines 233-241, 170-190, 371-380): serialize an element to an XML node. -/
def Elem.toXml : Elem → Xml
  | .para t => .elem "paragraph" [] (some t) []
  | .table columns rows => .elem "table" [] none [columnsToXml columns, rowsToXml rows]
  | .chapter title id_ els =>
      .elem "chapter" [("title", title), ("id", id_)] none (elemsToXml els)

/-- Serialize a list of elements in order (the `for element in
self.elements` loops of `Chapter.to_xml` / `Document.to_xml`). -/
def elemsToXml : List Elem → List Xml
  | [] => []
  | e :: es => e.toXml :: elemsToXml es

end

/-- `Document.to_xml` (document.py lines 457-467) up to the final
`ET.tostring`: the root `document` node with the title attribute and the
serialized elements. -/
def Document.toXml (d : Document) : Xml :=
  .elem "document" [("title", d.title)] none (elemsToXml d.elements)

/-- Text normalization performed by a serialize/parse round trip through
the external XML library: `ET.tostring` writes an element whose text is
the empty string as `<tag/>`, which `ET.fromstring` reads back with
`text = None`. Nonempty text (including whitespace-only text) survives. -/
def normText : Option String → Option String
  | some s => if s = "" then none else some s
  | none => none

mutual

/-- Model of `ET.fromstring(ET.tostring(x, encoding='unicode'))` for the
trees this program produces (no tails, no mixed content): tags, attributes
and children round-trip exactly; empty text collapses to absent text. -/
def etNorm : Xml → Xml
  | .elem t a tx cs => .elem t a (normText tx) (etNormList cs)

/-- `etNorm` applied to every child. -/
def etNormList : List Xml → List Xml
  | [] => []
  | c :: cs => etNorm c :: etNormList cs

end

/-- `Paragraph.from_xml` (document.py lines 205-213):
`text = paragraph_element.text or ""`, then the `Paragraph` constructor
strips the text. -/
def paragraphFromXml (x : Xml) : Elem :=
  .para (pyStrip (x.text.getD ""))

/-- `Table.from_xml` (document.py lines 102-119). `none` models the
`AttributeError` raised by `table_element.find('columns').findall(...)`
when there is no `columns` child. Each column is `(col.text,
col.attrib.get('width'))`; rows are read from the optional `rows` child,
with `cell.text or ""` for each cell. -/
def tableFromXml (x : Xml) : Option Elem :=
  match x.find? "columns" with
  | none => none
  | some colsElem =>
    let columns := (colsElem.findall "column").map fun c => (c.text, c.attr? "width")
    let rows :=
      match x.find? "rows" with
      | none => []
      | some rowsElem =>
        (rowsElem.findall "row").map fun r =>
          (r.findall "cell").map fun c => c.text.getD ""
    some (.table columns rows)

mutual

/-- `Chapter.from_xml` (document.py lines 258-279): title and id from the
attributes (with the documented defaults; the `Chapter` constructor strips
the title), children dispatched by tag in order. `none` models a
propagated exception from a nested `Table.from_xml`. -/
def chapterFromXml : Xml → Option Chapter
  | .elem _ attrs _ children =>
    match elemsFromXmlChildren children with
    | none => none
    | some els =>
      some ⟨pyStrip ((attrs.lookup "title").getD "Untitled Chapter"),
            (attrs.lookup "id").getD "unknown-id", els⟩

/-- The `for child in chapter_element` dispatch loop of `Chapter.from_xml`:
`chapter`/`table`/`paragraph` children are parsed in order, any other tag
is skipped with a diagnostic. -/
def elemsFromXmlChildren : List Xml → Option (List Elem)
  | [] => some []
  | c :: cs =>
    if c.tag = "chapter" then
      match chapterFromXml c with
      | none => none
      | some ch =>
        match elemsFromXmlChildren cs with
        | none => none
        | some rest => some (ch.toElem :: rest)
    else if c.tag = "table" then
      match tableFromXml c with
      | none => none
      | some t =>
        match elemsFromXmlChildren cs with
        | none => none
        | some rest => some (t :: rest)
    else if c.tag = "paragraph" then
      match elemsFromXmlChildren cs with
      | none => none
      | some rest => some (paragraphFromXml c :: rest)
    else elemsFromXmlChildren cs

end

/-- The `for chapter_element in root.findall('chapter')` loop of
`Document.from_xml` (document.py lines 406-407): parse each top-level
`chapter` child, propagating exceptions. -/
def chaptersFromXml : List Xml → Option (List Chapter)
  | [] => some []
  | c :: cs =>
    match chapterFromXml c with
    | none => none
    | some ch =>
      match chaptersFromXml cs with
      | none => none
      | some rest => some (ch :: rest)

/-- `Document.from_xml` (document.py lines 396-410) after `ET.fromstring`:
title from the `title` attribute (default `"Untitled Document"`, stripped
by the `Document` constructor), elements from the top-level `chapter`
children only. -/
def documentFromXml (root : Xml) : Option Document :=
  match chaptersFromXml (root.findall "chapter") with
  | none => none
  | some chs =>
    some ⟨pyStrip ((root.attr? "title").getD "Untitled Document"),
          chs.map Chapter.toElem⟩

/-- A block-level item of the flat (word-processor) document, as yielded by
`iter_block_items` (document.py lines 28-53): a paragraph carrying its
style name and text, or a table carrying its row-major cell texts. -/
inductive Block where
  | paragraph (style : String) (text : String)
  | table (rows : List (List String))
deriving DecidableEq

/-- `Table.from_word` (document.py lines 121-136): the first row becomes
the column headers (stripped, no width), the remaining rows become the
data rows (cells stripped); an empty table yields no columns and no
rows. -/
def tableFromWord (rows : List (List String)) : Elem :=
  match rows with
  | [] => .table [] []
  | r0 :: rest =>
    .table (r0.map fun c => (some (pyStrip c), none))
           (rest.map fun r => r.map pyStrip)

/-- The close-out step of `Chapter.from_word` (document.py lines 322-324
and 354-356): append the chapter under construction, if any, to the
accumulated list. -/
def closeOut (cur : Option Chapter) (acc : List Chapter) : List Chapter :=
  match cur with
  | none => acc
  | some c => acc ++ [c]

/-- Append an element to the chapter under construction, if one exists
(`current_chapter.elements.append(...)` guarded by
`if current_chapter is not None`); with no current chapter the element is
dropped. -/
def addToCur (cur : Option Chapter) (e : Elem) : Option Chapter :=
  cur.map fun c => { c with elements := c.elements ++ [e] }

/-- `Chapter.from_word` (document.py lines 281-359), the recursive
chapter-reconstruction loop, with explicit fuel (one unit per loop
iteration or recursive entry; `none` = fuel exhausted).

State: `blocks` (the full block list), `i` (`current_index`), `level`
(`heading_level`), `cur` (`current_chapter`), `acc` (`chapters`).
Branches, in source order:
* end of the block list: close out and return `(chapters, index)`;
* heading-styled paragraph: level-parse failure skips the block;
  `L < level` breaks (close out, return without consuming);
  `L == level` closes out and starts a fresh chapter titled with the
  block's text (stripped by the constructor) and id `"chapter-{index}"`;
  `L > level` recurses at level `L` from the same index with a fresh
  state, extends the current chapter (if any) with the returned
  subchapters, and resumes at the returned index;
* table block: appended to the current chapter (if any), index advances;
* other paragraph: appended (stripped) if its stripped text is nonempty
  and a current chapter exists, index advances either way. -/
def chFromWord : Nat → List Block → Nat → Int → Option Chapter → List Chapter →
    Option (List Chapter × Nat)
  | 0, _, _, _, _, _ => none
  | fuel + 1, blocks, i, level, cur, acc =>
    match blocks[i]? with
    | none => some (closeOut cur acc, i)
    | some (.paragraph style text) =>
      if pyStartsWith style "Heading" then
        match headingLevel? style with
        | none => chFromWord fuel blocks (i + 1) level cur acc
        | some L =>
          if L < level then some (closeOut cur acc, i)
          else if L = level then
            chFromWord fuel blocks (i + 1) level
              (some ⟨pyStrip text, "chapter-" ++ toString i, []⟩) (closeOut cur acc)
          else
            match chFromWord fuel blocks i L none [] with
            | none => none
            | some (subs, i') =>
              chFromWord fuel blocks i' level
                (cur.map fun c =>
                  { c with elements := c.elements ++ subs.map Chapter.toElem }) acc
      else
        if pyStrip text = "" then chFromWord fuel blocks (i + 1) level cur acc
        else chFromWord fuel blocks (i + 1) level (addToCur cur (.para (pyStrip text))) acc
    | some (.table rows) =>
      chFromWord fuel blocks (i + 1) level (addToCur cur (tableFromWord rows)) acc

/-- Is this block a `Title`-styled paragraph (document.py line 427)? -/
def isTitleBlock : Block → Bool
  | .paragraph style _ => pyStartsWith style "Title"
  | .table _ => false

/-- The text of a paragraph block (used only on paragraph blocks). -/
def blockText : Block → String
  | .paragraph _ text => text
  | .table _ => ""

/-- The final title default of `Document.from_word` (document.py lines
435-437): `if not title:` replaces both a missing and an empty title. -/
def finalTitle : Option String → String
  | none => "Untitled Document"
  | some t => if t = "" then "Untitled Document" else t

/-- The top-level loop of `Document.from_word` (document.py lines
412-440), with explicit fuel shared with the inner `Chapter.from_word`
calls: a `Title`-styled paragraph sets the document title and advances;
any other block hands control to `Chapter.from_word(blocks, index, 1)`,
whose chapters are appended and whose returned index resumes the loop.
`none` = fuel exhausted; divergence is `none` for every fuel. -/
def docFromWordAux : Nat → List Block → Nat → Option String → List Chapter →
    Option Document
  | 0, _, _, _, _ => none
  | fuel + 1, blocks, i, title, chs =>
    match blocks[i]? with
    | none => some ⟨finalTitle title, chs.map Chapter.toElem⟩
    | some b =>
      if isTitleBlock b then
        docFromWordAux fuel blocks (i + 1) (some (pyStrip (blockText b))) chs
      else
        match chFromWord fuel blocks i 1 none [] with
        | none => none
        | some (newChs, i') => docFromWordAux fuel blocks i' title (chs ++ newChs)

/-- An item appended to the target word-processor document by the
flattening algorithm: a heading at a level, a plain paragraph, or a table
given by its header cells (text and optional explicit width in
centimetres) and its data rows. -/
inductive WordItem where
  | heading (text : String) (level : Nat)
  | paragraph (text : String)
  | table (header : List (String × Option ℚ)) (rows : List (List String))
deriving DecidableEq

/-- A diagnostic emitted by the flattening algorithm
(`logger.warning` calls in `Table.to_word`). -/
inductive Diag where
  | noColumns
  | invalidWidth (width : String) (col : String)
deriving DecidableEq

/-- The state of the target word-processor document being built:
the appended items and the emitted diagnostics, in order. -/
structure DocxState where
  items : List WordItem
  diags : List Diag
deriving DecidableEq

/-- The header-cell loop of `Table.to_word` (document.py lines 151-160):
each column's name becomes the header cell text (`none` name models the
`TypeError` from assigning `None` to a cell text and aborts); a truthy
width string that parses as a float yields an explicit width of
`(width / 100) * TOTAL_TABLE_WIDTH_CM` centimetres; a non-numeric width
yields no width and a diagnostic; an absent or empty width is not
attempted at all. -/
def tableHeaderCells : List (Option String × Option String) →
    Option (List (String × Option ℚ) × List Diag)
  | [] => some ([], [])
  | (name, width) :: rest =>
    match name with
    | none => none
    | some n =>
      let cell : (String × Option ℚ) × List Diag :=
        match width with
        | none => ((n, none), [])
        | some w =>
          if w = "" then ((n, none), [])
          else
            match pyParseFloat w with
            | some q => ((n, some ((q / 100) * TOTAL_TABLE_WIDTH_CM)), [])
            | none => ((n, none), [.invalidWidth w n])
      match tableHeaderCells rest with
      | none => none
      | some (cells, diags) => some (cell.1 :: cells, cell.2 ++ diags)

/-- The data-row shape produced by `Table.to_word` (document.py lines
162-167): `add_row` creates one cell per column; cell texts are assigned
only for `i < len(row_cells)`, so a stored row is clipped to the column
count and padded with empty cells. -/
def fitRow (n : Nat) (r : List String) : List String :=
  r.take n ++ List.replicate (n - r.length) ""

/-- `Table.to_word` (document.py lines 138-168): with no columns, nothing
is appended and only a diagnostic is emitted; otherwise one table item is
appended, with the header cells and the clipped data rows. -/
def tableToWord (columns : List (Option String × Option String))
    (rows : List (List String)) (st : DocxState) : Option DocxState :=
  if columns.isEmpty then some ⟨st.items, st.diags ++ [.noColumns]⟩
  else
    match tableHeaderCells columns with
    | none => none
    | some (cells, diags) =>
      some ⟨st.items ++ [.table cells (rows.map (fitRow columns.length))],
            st.diags ++ diags⟩

mutual

/-- `Paragraph.to_word`, `Table.to_word` and `Chapter.to_word`
(document.py lines 225-231, 138-168, 361-369): append the element to the
word document at the given nesting level. A chapter appends a heading at
its level (docx `add_heading` raises for levels above 9) and then its
children at `level + 1`. -/
def elemToWord : Elem → Nat → DocxState → Option DocxState
  | .para t, _, st => some ⟨st.items ++ [.paragraph t], st.diags⟩
  | .table columns rows, _, st => tableToWord columns rows st
  | .chapter title _ els, level, st =>
    if level ≤ 9 then
      elemsToWord els (level + 1) ⟨st.items ++ [.heading title level], st.diags⟩
    else none

/-- The `for element in self.elements` loop of `Chapter.to_word` /
`Document.to_word`. -/
def elemsToWord : List Elem → Nat → DocxState → Option DocxState
  | [], _, st => some st
  | e :: es, level, st =>
    match elemToWord e level st with
    | none => none
    | some st' => elemsToWord es level st'

end

/-- `Document.to_word` (document.py lines 442-455) up to the final
`docx_document.save`: a level-0 heading with the document title, then
every element at level 1. -/
def documentToWord (d : Document) : Option DocxState :=
  elemsToWord d.elements 1 ⟨[.heading d.title 0], []⟩

/-- A file system: paths to file contents. A written word document is
stored via `docxEncode`. -/
def FS : Type := String → Option String

/-- Content written for a built word document (models the saved `.docx`
bytes; the encoding itself is irrelevant to the claims). -/
def docxEncode (st : DocxState) : String :=
  toString st.items.length ++ ":" ++ toString st.diags.length

/-- `tasks.create_word_from_x2doc` (tasks.py lines 6-19), parameterized by
the external XML string parser (`ET.fromstring`; `none` models a raised
`ParseError`). Source order: (1) if the input path does not exist, print
and return; (2) if the output path exists, print and `os.remove` it;
(3) read the input (re-reading after the removal — if input and output
coincide this read now fails); (4) `Document.from_xml`, whose failure
propagates and aborts; (5) build the word document and save it to the
output path. -/
def create_word_from_x2doc (parseXmlString : String → Option Xml)
    (fs : FS) (input output : String) : FS :=
  if (fs input).isNone then fs
  else
    let fs1 : FS :=
      if (fs output).isSome then fun p => if p = output then none else fs p else fs
    match fs1 input with
    | none => fs1
    | some s =>
      match (parseXmlString s).bind documentFromXml with
      | none => fs1
      | some doc =>
        match documentToWord doc with
        | none => fs1
        | some st => fun p => if p = output then some (docxEncode st) else fs1 p

mutual

/-- Values whose strings survive the codec unchanged: paragraph texts and
chapter titles are already stripped (as the constructors guarantee for
values built by this model), and table columns have no empty-string name
or width (an empty text collapses to absent text across serialization,
and an empty width string is falsy and never written). -/
def Elem.good : Elem → Bool
  | .para t => pyStrip t == t
  | .table columns _ => columns.all fun nw => nw.1 != some "" && nw.2 != some ""
  | .chapter title _ els => (pyStrip title == title) && elemsGood els

/-- `Elem.good` for every element of a list. -/
def elemsGood : List Elem → Bool
  | [] => true
  | e :: es => e.good && elemsGood es

end

/-- Documents for which the tree-format round trip can restore the value:
the title is stripped, every top-level element is a chapter, and every
element is `Elem.good`. -/
def Document.roundTrippable (d : Document) : Bool :=
  (pyStrip d.title == d.title) && d.elements.all Elem.isChapter && elemsGood d.elements

/-- Number of chapter elements in a list (direct subchapter count). -/
def countChapters (els : List Elem) : Nat :=
  (els.filter Elem.isChapter).length

/-- Is there a chain of `d` nested chapter elements starting among
`els` (a chapter `d` levels deep)? -/
def hasChapterAtDepth (els : List Elem) : Nat → Bool
  | 0 => true
  | d + 1 => els.any fun e => e.isChapter && hasChapterAtDepth e.children d

/-- Blocks that `Chapter.from_word` always skips without touching its
state: a heading-styled paragraph whose level token does not parse, or a
non-heading paragraph whose stripped text is empty. -/
def inertBlock : Block → Bool
  | .paragraph style text =>
    if pyStartsWith style "Heading" then (headingLevel? style).isNone
    else pyStrip text == ""
  | .table _ => false

/-- The block at position `j` is inert (or absent). -/
def inertAt (blocks : List Block) (j : Nat) : Bool :=
  match blocks[j]? with
  | some b => inertBlock b
  | none => true

/-- The block at position `k` is a heading-styled paragraph. -/
def headingAt (blocks : List Block) (k : Nat) : Bool :=
  match blocks[k]? with
  | some (.paragraph style _) => pyStartsWith style "Heading"
  | _ => false

/-- Heading sequence at levels [1, 2, 2, 1] (claim C2's input). -/
def tieBreakBlocks : List Block :=
  [.paragraph "Heading 1" "A", .paragraph "Heading 2" "B",
   .paragraph "Heading 2" "C", .paragraph "Heading 1" "D"]

/-- Level-1 heading, level-4 heading, plain paragraph (claim C3's
input). -/
def gapBlocks : List Block :=
  [.paragraph "Heading 1" "A", .paragraph "Heading 4" "B",
   .paragraph "Normal" "p"]

/-- A concrete file system with an (unparsable) input file and a
pre-existing output file. -/
def c8fs : FS := fun p =>
  if p = "in.xml" then some "bad xml"
  else if p = "out.docx" then some "OLD" else none

/-! ## Fuel lemmas for the flat reconstruction -/

/-- Fuel monotonicity, successor step: a result reached within `f` loop
steps is unchanged by extra fuel. -/
theorem chFromWord_succ (f : Nat) :
    ∀ blocks i level cur acc r, chFromWord f blocks i level cur acc = some r →
      chFromWord (f + 1) blocks i level cur acc = some r := by
  induction f with
  | zero => intro blocks i level cur acc r h; simp [chFromWord] at h
  | succ f ih =>
    intro blocks i level cur acc r h
    rw [chFromWord] at h ⊢
    cases hb : blocks[i]? with
    | none => simpa [hb] using h
    | some b =>
      cases b with
      | table rows =>
        simp only [hb] at h ⊢
        exact ih _ _ _ _ _ _ h
      | paragraph style text =>
        simp only [hb] at h ⊢
        by_cases hs : pyStartsWith style "Heading" <;> simp only [hs, if_true, if_false] at h ⊢
        · cases hL : headingLevel? style with
          | none =>
            simp only [hL] at h ⊢
            exact ih _ _ _ _ _ _ h
          | some L =>
            simp only [hL] at h ⊢
            by_cases h1 : L < level <;> simp only [h1, if_true, if_false] at h ⊢
            · exact h
            · by_cases h2 : L = level <;> simp only [h2, if_true, if_false] at h ⊢
              · exact ih _ _ _ _ _ _ h
              · cases hsub : chFromWord f blocks i L none [] with
                | none => rw [hsub] at h; simp at h
                | some si =>
                  rw [hsub] at h
                  rw [ih _ _ _ _ _ _ hsub]
                  exact ih _ _ _ _ _ _ h
        · by_cases ht : pyStrip text = "" <;> simp only [ht, if_true, if_false] at h ⊢ <;>
            exact ih _ _ _ _ _ _ h

/-- Fuel monotonicity: any extra fuel preserves a reached result. -/
theorem chFromWord_mono {f blocks i level cur acc r}
    (h : chFromWord f blocks i level cur acc = some r) (d : Nat) :
    chFromWord (f + d) blocks i level cur acc = some r := by
  induction d with
  | zero => exact h
  | succ d ih => exact chFromWord_succ _ _ _ _ _ _ _ ih

/-- Unfolding `chFromWord` past the end of the block list. -/
theorem chFromWord_at_none (f : Nat) (blocks : List Block) (i : Nat) (level : Int)
    (cur : Option Chapter) (acc : List Chapter) (hb : blocks[i]? = none) :
    chFromWord (f + 1) blocks i level cur acc = some (closeOut cur acc, i) := by
  rw [chFromWord, hb]

/-- Unfolding `chFromWord` at a table block. -/
theorem chFromWord_at_table (f : Nat) (blocks : List Block) (i : Nat) (level : Int)
    (cur : Option Chapter) (acc : List Chapter) (rows : List (List String))
    (hb : blocks[i]? = some (.table rows)) :
    chFromWord (f + 1) blocks i level cur acc =
      chFromWord f blocks (i + 1) level (addToCur cur (tableFromWord rows)) acc := by
  rw [chFromWord, hb]

/-- Unfolding `chFromWord` at a heading-styled paragraph with an
unparsable level token. -/
theorem chFromWord_at_malformed (f : Nat) (blocks : List Block) (i : Nat) (level : Int)
    (cur : Option Chapter) (acc : List Chapter) (style text : String)
    (hb : blocks[i]? = some (.paragraph style text))
    (hs : pyStartsWith style "Heading" = true) (hp : headingLevel? style = none) :
    chFromWord (f + 1) blocks i level cur acc = chFromWord f blocks (i + 1) level cur acc := by
  rw [chFromWord, hb]
  simp [hs, hp]

/-- Unfolding `chFromWord` at a heading of strictly smaller level:
the loop breaks without consuming the block. -/
theorem chFromWord_at_break (f : Nat) (blocks : List Block) (i : Nat) (level L : Int)
    (cur : Option Chapter) (acc : List Chapter) (style text : String)
    (hb : blocks[i]? = some (.paragraph style text))
    (hs : pyStartsWith style "Heading" = true) (hp : headingLevel? style = some L)
    (hlt : L < level) :
    chFromWord (f + 1) blocks i level cur acc = some (closeOut cur acc, i) := by
  rw [chFromWord, hb]
  simp [hs, hp, hlt]

/-- Unfolding `chFromWord` at a heading of the current level: close out
and start a fresh chapter. -/
theorem chFromWord_at_same (f : Nat) (blocks : List Block) (i : Nat) (level : Int)
    (cur : Option Chapter) (acc : List Chapter) (style text : String)
    (hb : blocks[i]? = some (.paragraph style text))
    (hs : pyStartsWith style "Heading" = true) (hp : headingLevel? style = some level) :
    chFromWord (f + 1) blocks i level cur acc =
      chFromWord f blocks (i + 1) level
        (some ⟨pyStrip text, "chapter-" ++ toString i, []⟩) (closeOut cur acc) := by
  rw [chFromWord, hb]
  simp [hs, hp]

/-- Unfolding `chFromWord` at a heading of strictly greater level when the
recursive subchapter call runs out of fuel. -/
theorem chFromWord_at_deeper_none (f : Nat) (blocks : List Block) (i : Nat) (level L : Int)
    (cur : Option Chapter) (acc : List Chapter) (style text : String)
    (hb : blocks[i]? = some (.paragraph style text))
    (hs : pyStartsWith style "Heading" = true) (hp : headingLevel? style = some L)
    (hgt : level < L) (hsub : chFromWord f blocks i L none [] = none) :
    chFromWord (f + 1) blocks i level cur acc = none := by
  rw [chFromWord, hb]
  have h1 : ¬ L < level := by omega
  have h2 : ¬ L = level := by omega
  simp [hs, hp, h1, h2, hsub]

/-- Unfolding `chFromWord` at a heading of strictly greater level: the
recursive subchapter call returns, its chapters extend the current
chapter (if any), and the loop resumes at the returned index. -/
theorem chFromWord_at_deeper_some (f : Nat) (blocks : List Block) (i : Nat) (level L : Int)
    (cur : Option Chapter) (acc subs : List Chapter) (i1 : Nat) (style text : String)
    (hb : blocks[i]? = some (.paragraph style text))
    (hs : pyStartsWith style "Heading" = true) (hp : headingLevel? style = some L)
    (hgt : level < L) (hsub : chFromWord f blocks i L none [] = some (subs, i1)) :
    chFromWord (f + 1) blocks i level cur acc =
      chFromWord f blocks i1 level
        (cur.map fun c => { c with elements := c.elements ++ subs.map Chapter.toElem })
        acc := by
  rw [chFromWord, hb]
  have h1 : ¬ L < level := by omega
  have h2 : ¬ L = level := by omega
  simp [hs, hp, h1, h2, hsub]

/-- Unfolding `chFromWord` at a non-heading paragraph with blank
(stripped-empty) text: skipped. -/
theorem chFromWord_at_blank (f : Nat) (blocks : List Block) (i : Nat) (level : Int)
    (cur : Option Chapter) (acc : List Chapter) (style text : String)
    (hb : blocks[i]? = some (.paragraph style text))
    (hs : pyStartsWith style "Heading" = false) (ht : pyStrip text = "") :
    chFromWord (f + 1) blocks i level cur acc = chFromWord f blocks (i + 1) level cur acc := by
  rw [chFromWord, hb]
  simp [hs, ht]

/-- Unfolding `chFromWord` at a non-heading paragraph with nonempty
stripped text: appended to the current chapter, if any. -/
theorem chFromWord_at_text (f : Nat) (blocks : List Block) (i : Nat) (level : Int)
    (cur : Option Chapter) (acc : List Chapter) (style text : String)
    (hb : blocks[i]? = some (.paragraph style text))
    (hs : pyStartsWith style "Heading" = false) (ht : ¬ pyStrip text = "") :
    chFromWord (f + 1) blocks i level cur acc =
      chFromWord f blocks (i + 1) level (addToCur cur (.para (pyStrip text))) acc := by
  rw [chFromWord, hb]
  simp [hs, ht]

/-- The reconstruction index never moves backwards. -/
theorem chFromWord_index_le :
    ∀ (fuel : Nat) (blocks : List Block) (i : Nat) (level : Int) (cur : Option Chapter)
      (acc chs : List Chapter) (i' : Nat),
      chFromWord fuel blocks i level cur acc = some (chs, i') → i ≤ i' := by
  intro fuel
  induction fuel with
  | zero => intro blocks i level cur acc chs i' h; simp [chFromWord] at h
  | succ f ih =>
    intro blocks i level cur acc chs i' h
    cases hb : blocks[i]? with
    | none =>
      rw [chFromWord_at_none f blocks i level cur acc hb] at h
      simp only [Option.some.injEq, Prod.mk.injEq] at h
      omega
    | some b =>
      cases b with
      | table rows =>
        rw [chFromWord_at_table f blocks i level cur acc rows hb] at h
        have := ih _ _ _ _ _ _ _ h
        omega
      | paragraph style text =>
        cases hs : pyStartsWith style "Heading" with
        | true =>
          cases hp : headingLevel? style with
          | none =>
            rw [chFromWord_at_malformed f blocks i level cur acc style text hb hs hp] at h
            have := ih _ _ _ _ _ _ _ h
            omega
          | some L =>
            rcases lt_trichotomy L level with hlt | heq | hgt
            · rw [chFromWord_at_break f blocks i level L cur acc style text hb hs hp hlt] at h
              simp only [Option.some.injEq, Prod.mk.injEq] at h
              omega
            · subst heq
              rw [chFromWord_at_same f blocks i L cur acc style text hb hs hp] at h
              have := ih _ _ _ _ _ _ _ h
              omega
            · cases hsub : chFromWord f blocks i L none [] with
              | none =>
                rw [chFromWord_at_deeper_none f blocks i level L cur acc style text
                      hb hs hp hgt hsub] at h
                simp at h
              | some si =>
                obtain ⟨subs, i1⟩ := si
                rw [chFromWord_at_deeper_some f blocks i level L cur acc subs i1 style text
                      hb hs hp hgt hsub] at h
                have h1 := ih _ _ _ _ _ _ _ hsub
                have h2 := ih _ _ _ _ _ _ _ h
                omega
        | false =>
          by_cases ht : pyStrip text = ""
          · rw [chFromWord_at_blank f blocks i level cur acc style text hb hs ht] at h
            have := ih _ _ _ _ _ _ _ h
            omega
          · rw [chFromWord_at_text f blocks i level cur acc style text hb hs ht] at h
            have := ih _ _ _ _ _ _ _ h
            omega

/-- The reconstruction never looks at positions below the current index:
two block lists agreeing at every position `≥ i` reconstruct identically
from `i`. -/
theorem chFromWord_congr_ge :
    ∀ (fuel : Nat) (blocks blocks' : List Block) (i : Nat),
      (∀ k, i ≤ k → blocks[k]? = blocks'[k]?) →
      ∀ (level : Int) (cur : Option Chapter) (acc : List Chapter),
        chFromWord fuel blocks i level cur acc = chFromWord fuel blocks' i level cur acc := by
  intro fuel
  induction fuel with
  | zero => intro _ _ _ _ _ _ _; rfl
  | succ f ih =>
    intro blocks blocks' i hag level cur acc
    have hbi : blocks[i]? = blocks'[i]? := hag i (Nat.le_refl i)
    have hag1 : ∀ k, i + 1 ≤ k → blocks[k]? = blocks'[k]? := fun k hk => hag k (by omega)
    cases hb : blocks[i]? with
    | none =>
      have hb' : blocks'[i]? = none := by rw [← hbi]; exact hb
      rw [chFromWord_at_none f blocks i level cur acc hb,
          chFromWord_at_none f blocks' i level cur acc hb']
    | some b =>
      have hb' : blocks'[i]? = some b := by rw [← hbi]; exact hb
      cases b with
      | table rows =>
        rw [chFromWord_at_table f blocks i level cur acc rows hb,
            chFromWord_at_table f blocks' i level cur acc rows hb']
        exact ih _ _ _ hag1 _ _ _
      | paragraph style text =>
        cases hs : pyStartsWith style "Heading" with
        | true =>
          cases hp : headingLevel? style with
          | none =>
            rw [chFromWord_at_malformed f blocks i level cur acc style text hb hs hp,
                chFromWord_at_malformed f blocks' i level cur acc style text hb' hs hp]
            exact ih _ _ _ hag1 _ _ _
          | some L =>
            rcases lt_trichotomy L level with hlt | heq | hgt
            · rw [chFromWord_at_break f blocks i level L cur acc style text hb hs hp hlt,
                  chFromWord_at_break f blocks' i level L cur acc style text hb' hs hp hlt]
            · subst heq
              rw [chFromWord_at_same f blocks i L cur acc style text hb hs hp,
                  chFromWord_at_same f blocks' i L cur acc style text hb' hs hp]
              exact ih _ _ _ hag1 _ _ _
            · have hsub : chFromWord f blocks i L none [] =
                  chFromWord f blocks' i L none [] := ih _ _ _ hag _ _ _
              cases hres : chFromWord f blocks i L none [] with
              | none =>
                rw [chFromWord_at_deeper_none f blocks i level L cur acc style text
                      hb hs hp hgt hres,
                    chFromWord_at_deeper_none f blocks' i level L cur acc style text
                      hb' hs hp hgt (by rw [← hsub]; exact hres)]
              | some si =>
                obtain ⟨subs, i1⟩ := si
                have hle := chFromWord_index_le f blocks i L none [] subs i1 hres
                rw [chFromWord_at_deeper_some f blocks i level L cur acc subs i1 style text
                      hb hs hp hgt hres,
                    chFromWord_at_deeper_some f blocks' i level L cur acc subs i1 style text
                      hb' hs hp hgt (by rw [← hsub]; exact hres)]
                exact ih _ _ _ (fun k hk => hag k (by omega)) _ _ _
        | false =>
          by_cases ht : pyStrip text = ""
          · rw [chFromWord_at_blank f blocks i level cur acc style text hb hs ht,
                chFromWord_at_blank f blocks' i level cur acc style text hb' hs ht]
            exact ih _ _ _ hag1 _ _ _
          · rw [chFromWord_at_text f blocks i level cur acc style text hb hs ht,
                chFromWord_at_text f blocks' i level cur acc style text hb' hs ht]
            exact ih _ _ _ hag1 _ _ _

/-- One loop iteration on an inert block (malformed heading or blank
non-heading paragraph) just advances the index. -/
theorem chFromWord_inert_step (f : Nat) (blocks : List Block) (i : Nat) (level : Int)
    (cur : Option Chapter) (acc : List Chapter) (b : Block)
    (hb : blocks[i]? = some b) (hin : inertBlock b = true) :
    chFromWord (f + 1) blocks i level cur acc = chFromWord f blocks (i + 1) level cur acc := by
  cases b with
  | table rows => simp [inertBlock] at hin
  | paragraph style text =>
    cases hs : pyStartsWith style "Heading" with
    | true =>
      simp only [inertBlock, hs, if_true] at hin
      exact chFromWord_at_malformed f blocks i level cur acc style text hb hs
        (by simpa using hin)
    | false =>
      simp only [inertBlock, hs, Bool.false_eq_true, if_false] at hin
      exact chFromWord_at_blank f blocks i level cur acc style text hb hs
        (by simpa using hin)

/-- Replacing one inert block by another inert block (with the list
length unchanged) leaves the whole reconstruction unchanged, from any
starting state. -/
theorem chFromWord_inert_congr :
    ∀ (fuel : Nat) (blocks blocks' : List Block) (j : Nat),
      blocks.length = blocks'.length →
      (∀ k, k < blocks.length → k ≠ j → blocks[k]? = blocks'[k]?) →
      inertAt blocks j = true → inertAt blocks' j = true →
      ∀ (i : Nat) (level : Int) (cur : Option Chapter) (acc : List Chapter),
        chFromWord fuel blocks i level cur acc = chFromWord fuel blocks' i level cur acc := by
  intro fuel
  induction fuel with
  | zero => intro _ _ _ _ _ _ _ _ _ _ _; rfl
  | succ f ih =>
    intro blocks blocks' j hlen hag hj hj' i level cur acc
    have hag' : ∀ k, k ≠ j → blocks[k]? = blocks'[k]? := by
      intro k hk
      by_cases hlt : k < blocks.length
      · exact hag k hlt hk
      · rw [List.getElem?_eq_none (by omega), List.getElem?_eq_none (by omega)]
    by_cases hij : i = j
    · subst hij
      cases hb : blocks[i]? with
      | none =>
        have hi : blocks.length ≤ i := List.getElem?_eq_none_iff.mp hb
        have hb' : blocks'[i]? = none := List.getElem?_eq_none (by omega)
        rw [chFromWord_at_none f blocks i level cur acc hb,
            chFromWord_at_none f blocks' i level cur acc hb']
      | some b =>
        have hbi : inertBlock b = true := by unfold inertAt at hj; rw [hb] at hj; exact hj
        have hlt : i < blocks.length := (List.getElem?_eq_some_iff.mp hb).1
        obtain ⟨b', hb'⟩ : ∃ b', blocks'[i]? = some b' := by
          cases hx : blocks'[i]? with
          | some b' => exact ⟨b', rfl⟩
          | none => exact absurd (List.getElem?_eq_none_iff.mp hx) (by omega)
        have hbi' : inertBlock b' = true := by unfold inertAt at hj'; rw [hb'] at hj'; exact hj'
        rw [chFromWord_inert_step f blocks i level cur acc b hb hbi,
            chFromWord_inert_step f blocks' i level cur acc b' hb' hbi']
        exact ih _ _ _ hlen hag hj hj' _ _ _ _
    · have hbi := hag' i hij
      cases hb : blocks[i]? with
      | none =>
        have hb' : blocks'[i]? = none := by rw [← hbi]; exact hb
        rw [chFromWord_at_none f blocks i level cur acc hb,
            chFromWord_at_none f blocks' i level cur acc hb']
      | some b =>
        have hb' : blocks'[i]? = some b := by rw [← hbi]; exact hb
        cases b with
        | table rows =>
          rw [chFromWord_at_table f blocks i level cur acc rows hb,
              chFromWord_at_table f blocks' i level cur acc rows hb']
          exact ih _ _ _ hlen hag hj hj' _ _ _ _
        | paragraph style text =>
          cases hs : pyStartsWith style "Heading" with
          | true =>
            cases hp : headingLevel? style with
            | none =>
              rw [chFromWord_at_malformed f blocks i level cur acc style text hb hs hp,
                  chFromWord_at_malformed f blocks' i level cur acc style text hb' hs hp]
              exact ih _ _ _ hlen hag hj hj' _ _ _ _
            | some L =>
              rcases lt_trichotomy L level with hlt | heq | hgt
              · rw [chFromWord_at_break f blocks i level L cur acc style text hb hs hp hlt,
                    chFromWord_at_break f blocks' i level L cur acc style text hb' hs hp hlt]
              · subst heq
                rw [chFromWord_at_same f blocks i L cur acc style text hb hs hp,
                    chFromWord_at_same f blocks' i L cur acc style text hb' hs hp]
                exact ih _ _ _ hlen hag hj hj' _ _ _ _
              · have hsub : chFromWord f blocks i L none [] =
                    chFromWord f blocks' i L none [] := ih _ _ _ hlen hag hj hj' _ _ _ _
                cases hres : chFromWord f blocks i L none [] with
                | none =>
                  rw [chFromWord_at_deeper_none f blocks i level L cur acc style text
                        hb hs hp hgt hres,
                      chFromWord_at_deeper_none f blocks' i level L cur acc style text
                        hb' hs hp hgt (by rw [← hsub]; exact hres)]
                | some si =>
                  obtain ⟨subs, i1⟩ := si
                  rw [chFromWord_at_deeper_some f blocks i level L cur acc subs i1 style text
                        hb hs hp hgt hres,
                      chFromWord_at_deeper_some f blocks' i level L cur acc subs i1 style text
                        hb' hs hp hgt (by rw [← hsub]; exact hres)]
                  exact ih _ _ _ hlen hag hj hj' _ _ _ _
          | false =>
            by_cases ht : pyStrip text = ""
            · rw [chFromWord_at_blank f blocks i level cur acc style text hb hs ht,
                  chFromWord_at_blank f blocks' i level cur acc style text hb' hs ht]
              exact ih _ _ _ hlen hag hj hj' _ _ _ _
            · rw [chFromWord_at_text f blocks i level cur acc style text hb hs ht,
                  chFromWord_at_text f blocks' i level cur acc style text hb' hs ht]
              exact ih _ _ _ hlen hag hj hj' _ _ _ _

/-! ## Claims C2, C3 (tie-break and gap tolerance) -/

/-- C2, counterexample: on headings at levels [1, 2, 2, 1],
`Chapter.from_word(blocks, 0, 1)` does produce two top-level chapters, but
the first contains two subchapters (the two level-2 headings become
siblings under it), not exactly one as the claim states. -/
theorem c2_first_chapter_has_two_subchapters :
    (chFromWord 8 tieBreakBlocks 0 1 none []).map
        (fun r => r.1.map fun c => countChapters c.elements) = some [2, 0] ∧
      ¬ (chFromWord 8 tieBreakBlocks 0 1 none []).map
          (fun r => r.1.map fun c => countChapters c.elements) = some [1, 0] := by
  constructor
  · decide
  · decide

/-- C2, amended: the flat reconstruction on heading levels [1, 2, 2, 1]
produces exactly two top-level chapters; the first (titled by the first
heading) contains exactly two subchapters, the two level-2 headings, as
siblings; the second contains zero; all four input blocks are consumed. -/
theorem c2_tie_break (extra : Nat) :
    chFromWord (8 + extra) tieBreakBlocks 0 1 none [] =
      some ([⟨"A", "chapter-0",
              [.chapter "B" "chapter-1" [], .chapter "C" "chapter-2" []]⟩,
             ⟨"D", "chapter-3", []⟩], 4) :=
  chFromWord_mono (by decide) extra

/-- C3, counterexample: on [level-1 heading, level-4 heading, paragraph]
the reconstruction succeeds, but the level-4 chapter (with its paragraph)
becomes a direct child of the level-1 chapter — a chapter one level deep,
not three: no chapter chain of depth 3 exists in the result. -/
theorem c3_nests_directly_not_three_deep :
    chFromWord 8 gapBlocks 0 1 none [] =
        some ([⟨"A", "chapter-0", [.chapter "B" "chapter-1" [.para "p"]]⟩], 3) ∧
      (chFromWord 8 gapBlocks 0 1 none []).map
          (fun r => r.1.map fun c => hasChapterAtDepth c.elements 3) = some [false] ∧
      (chFromWord 8 gapBlocks 0 1 none []).map
          (fun r => r.1.map fun c => hasChapterAtDepth c.elements 1) = some [true] := by
  refine ⟨by decide, by decide, by decide⟩

/-- C3, amended: the flat reconstruction on [level-1 heading, level-4
heading, paragraph] succeeds without error and nests the level-4 chapter
(containing the paragraph) as a direct child of the level-1 chapter — no
intermediate chapters are created for the skipped levels 2 and 3. -/
theorem c3_gap_tolerance (extra : Nat) :
    chFromWord (8 + extra) gapBlocks 0 1 none [] =
      some ([⟨"A", "chapter-0", [.chapter "B" "chapter-1" [.para "p"]]⟩], 3) :=
  chFromWord_mono (by decide) extra

/-! ## Claim C4 (termination) -/

/-- C4: on a single paragraph styled `Heading 0`, the top-level loop of
`Document.from_word` never finishes, for any amount of fuel:
`Chapter.from_word(blocks, 0, 1)` sees level 0 < 1, breaks immediately and
returns the unchanged index 0, and the outer `while` loop re-enters with
the same state forever. -/
theorem c4_from_word_diverges_on_heading_zero :
    ∀ (fuel : Nat) (title : Option String) (chs : List Chapter),
      docFromWordAux fuel [.paragraph "Heading 0" "x"] 0 title chs = none := by
  intro fuel
  induction fuel with
  | zero => intro title chs; rfl
  | succ f ih =>
    intro title chs
    rw [docFromWordAux]
    have hb : ([Block.paragraph "Heading 0" "x"])[0]? =
        some (Block.paragraph "Heading 0" "x") := rfl
    rw [hb]
    have hT : isTitleBlock (Block.paragraph "Heading 0" "x") = false := by decide
    simp only [hT, Bool.false_eq_true, if_false]
    cases f with
    | zero => rfl
    | succ g =>
      have hstep : chFromWord (g + 1) [Block.paragraph "Heading 0" "x"] 0 1 none [] =
          some ([], 0) := by
        rw [chFromWord, hb]
        have hs : pyStartsWith "Heading 0" "Heading" = true := by decide
        have hL : headingLevel? "Heading 0" = some 0 := by decide
        simp [hs, hL, closeOut]
      rw [hstep]
      exact ih title (chs ++ [])

/-! ## Claims C7, C10 (table flattening) -/

/-- C7: when a table is flattened at any level, a column with width string
`"50"` receives an explicit width of exactly 7.5 cm
(`(50 / 100) * TOTAL_TABLE_WIDTH_CM` with the 15 cm budget), while a
column with the non-numeric width string `"abc"` is emitted with no
explicit width and an invalid-width diagnostic is recorded. -/
theorem c7_width_conversion :
    elemToWord (.table [(some "a", some "50"), (some "b", some "abc")] []) 1 ⟨[], []⟩ =
        some ⟨[.table [("a", some ((50 / 100 : ℚ) * TOTAL_TABLE_WIDTH_CM)), ("b", none)] []],
              [.invalidWidth "abc" "b"]⟩ ∧
      (50 / 100 : ℚ) * TOTAL_TABLE_WIDTH_CM = 7.5 :=
  ⟨rfl, by norm_num [TOTAL_TABLE_WIDTH_CM]⟩

/-- C10: flattening a table whose column list is empty appends nothing at
all to the target document — no table, no header row, no data rows —
whatever the data rows are; only the no-columns diagnostic is emitted. -/
theorem c10_empty_columns_appends_nothing
    (rows : List (List String)) (level : Nat) (st : DocxState) :
    elemToWord (.table [] rows) level st =
      some ⟨st.items, st.diags ++ [.noColumns]⟩ := rfl

/-! ## Claim C5 (malformed heading recovery) -/

/-- C5, counterexample: chapter ids are derived from block indices, so the
chapter list after skipping a malformed heading is NOT the same as if the
block were absent: with the malformed heading present the following
chapter gets id `"chapter-1"`, without it `"chapter-0"`. -/
theorem c5_id_shift_counterexample :
    chFromWord 8 [.paragraph "Heading X" "t", .paragraph "Heading 1" "A"] 0 1 none [] =
        some ([⟨"A", "chapter-1", []⟩], 2) ∧
      chFromWord 8 [.paragraph "Heading 1" "A"] 0 1 none [] =
        some ([⟨"A", "chapter-0", []⟩], 1) ∧
      (⟨"A", "chapter-1", []⟩ : Chapter) ≠ ⟨"A", "chapter-0", []⟩ := by
  refine ⟨by decide, by decide, by decide⟩

/-- C5, amended: a heading-styled paragraph whose level token does not
parse is skipped (with a diagnostic), the index advances by one and
parsing continues with unchanged state; the resulting chapter list is the
one obtained with that block replaced by an ignorable blank paragraph —
not the one obtained with the block deleted, because chapter ids are
derived from block indices. -/
theorem c5_malformed_heading_skipped (fuel : Nat) (blocks : List Block) (j : Nat)
    (style text : String) (i : Nat) (level : Int) (cur : Option Chapter)
    (acc : List Chapter)
    (hb : blocks[j]? = some (.paragraph style text))
    (hs : pyStartsWith style "Heading" = true)
    (hp : headingLevel? style = none) :
    chFromWord fuel blocks i level cur acc =
      chFromWord fuel (blocks.set j (.paragraph "Normal" "")) i level cur acc := by
  have hjlt : j < blocks.length := (List.getElem?_eq_some_iff.mp hb).1
  apply chFromWord_inert_congr fuel blocks _ j
  · rw [List.length_set]
  · intro k _ hkj
    rw [List.getElem?_set_ne (Ne.symm hkj)]
  · unfold inertAt
    rw [hb]
    unfold inertBlock
    simp [hs, hp]
  · unfold inertAt
    rw [List.getElem?_set_self hjlt]
    decide

/-- C5, witness: the amended theorem applied at a concrete malformed
heading block. -/
theorem c5_malformed_heading_skipped_witness :
    ([Block.paragraph "Heading X" "t", Block.paragraph "Heading 1" "A"])[0]? =
        some (Block.paragraph "Heading X" "t") ∧
      pyStartsWith "Heading X" "Heading" = true ∧
      headingLevel? "Heading X" = none ∧
      chFromWord 8 [.paragraph "Heading X" "t", .paragraph "Heading 1" "A"] 0 1 none [] =
        chFromWord 8
          ([Block.paragraph "Heading X" "t",
            Block.paragraph "Heading 1" "A"].set 0 (.paragraph "Normal" ""))
          0 1 none [] :=
  ⟨by decide, by decide, by decide,
    c5_malformed_heading_skipped 8 _ 0 "Heading X" "t" 0 1 none []
      (by decide) (by decide) (by decide)⟩

/-! ## Claim C6 (orphan table drop) -/

/-- C6: a table block at position `j` that is preceded (from the scan
start) by no heading-styled paragraph contributes nothing: with no current
chapter the table branch drops it, and the whole reconstruction from any
start `i ≤ j` with no current chapter equals the reconstruction with that
table replaced by an ignorable blank paragraph — the table produces no
chapter and is attached nowhere in the resulting tree. -/
theorem c6_orphan_table_dropped :
    ∀ (fuel : Nat) (blocks : List Block) (j : Nat) (rows : List (List String)),
      blocks[j]? = some (.table rows) →
      ∀ (i : Nat) (level : Int) (acc : List Chapter),
        i ≤ j → (∀ k, k < j → i ≤ k → headingAt blocks k = false) →
        chFromWord fuel blocks i level none acc =
          chFromWord fuel (blocks.set j (.paragraph "Normal" "")) i level none acc := by
  intro fuel blocks j rows hb
  have hjlt : j < blocks.length := (List.getElem?_eq_some_iff.mp hb).1
  induction fuel with
  | zero => intro i level acc _ _; rfl
  | succ f ih =>
    intro i level acc hij hnh
    rcases Nat.eq_or_lt_of_le hij with hEq | hlt
    · subst hEq
      have hb' : (blocks.set i (Block.paragraph "Normal" ""))[i]? =
          some (Block.paragraph "Normal" "") := List.getElem?_set_self hjlt
      rw [chFromWord_at_table f blocks i level none acc rows hb,
          chFromWord_at_blank f (blocks.set i (Block.paragraph "Normal" "")) i level
            none acc "Normal" "" hb' (by decide) (by decide)]
      have haddnone : addToCur none (tableFromWord rows) = none := rfl
      rw [haddnone]
      apply chFromWord_congr_ge
      intro k hk
      rw [List.getElem?_set_ne (by omega)]
    · have hbi : blocks[i]? = (blocks.set j (Block.paragraph "Normal" ""))[i]? :=
        (List.getElem?_set_ne (by omega)).symm
      cases hbk : blocks[i]? with
      | none =>
        have hb' : (blocks.set j (Block.paragraph "Normal" ""))[i]? = none := by
          rw [← hbi]; exact hbk
        rw [chFromWord_at_none f blocks i level none acc hbk,
            chFromWord_at_none f (blocks.set j (Block.paragraph "Normal" "")) i level
              none acc hb']
      | some b =>
        have hb' : (blocks.set j (Block.paragraph "Normal" ""))[i]? = some b := by
          rw [← hbi]; exact hbk
        have hhd : headingAt blocks i = false := hnh i hlt (Nat.le_refl i)
        unfold headingAt at hhd
        rw [hbk] at hhd
        cases b with
        | table rows' =>
          rw [chFromWord_at_table f blocks i level none acc rows' hbk,
              chFromWord_at_table f (blocks.set j (Block.paragraph "Normal" "")) i level
                none acc rows' hb']
          have haddnone : addToCur none (tableFromWord rows') = none := rfl
          rw [haddnone]
          exact ih (i + 1) level acc (by omega) (fun k hk1 hk2 => hnh k hk1 (by omega))
        | paragraph style text =>
          by_cases ht : pyStrip text = ""
          · rw [chFromWord_at_blank f blocks i level none acc style text hbk hhd ht,
                chFromWord_at_blank f (blocks.set j (Block.paragraph "Normal" "")) i level
                  none acc style text hb' hhd ht]
            exact ih (i + 1) level acc (by omega) (fun k hk1 hk2 => hnh k hk1 (by omega))
          · rw [chFromWord_at_text f blocks i level none acc style text hbk hhd ht,
                chFromWord_at_text f (blocks.set j (Block.paragraph "Normal" "")) i level
                  none acc style text hb' hhd ht]
            have haddnone : addToCur none (Elem.para (pyStrip text)) = none := rfl
            rw [haddnone]
            exact ih (i + 1) level acc (by omega) (fun k hk1 hk2 => hnh k hk1 (by omega))

/-- C6, witness: a table before any heading, concretely dropped. -/
theorem c6_orphan_table_dropped_witness :
    ([Block.table [["x"]], Block.paragraph "Heading 1" "A"])[0]? =
        some (Block.table [["x"]]) ∧
      (0 : Nat) ≤ 0 ∧
      (∀ k, k < 0 → 0 ≤ k →
        headingAt [Block.table [["x"]], Block.paragraph "Heading 1" "A"] k = false) ∧
      chFromWord 8 [Block.table [["x"]], Block.paragraph "Heading 1" "A"] 0 1 none [] =
        chFromWord 8
          ([Block.table [["x"]], Block.paragraph "Heading 1" "A"].set 0
            (.paragraph "Normal" ""))
          0 1 none [] :=
  ⟨by decide, by decide, by omega,
    c6_orphan_table_dropped 8 _ 0 [["x"]] (by decide) 0 1 []
      (by decide) (by omega)⟩

/-! ## Claim C8 (no partial output on parse failure) -/

/-- C8, counterexample: the task removes a pre-existing output file
*before* parsing the input, so when parsing fails the output file is not
left unchanged — it has been deleted (here: the external XML parser
raises on the input, modelled by the always-failing parser). -/
theorem c8_output_file_deleted_counterexample :
    c8fs "out.docx" = some "OLD" ∧
      create_word_from_x2doc (fun _ => none) c8fs "in.xml" "out.docx" "out.docx" = none := by
  exact ⟨rfl, rfl⟩

/-- C8, amended: when the tree-format input is unparsable, the conversion
aborts and no output is written — but the task has already deleted any
pre-existing output file before parsing, so after the failure the output
path holds nothing, while every other path is untouched. -/
theorem c8_no_output_written_on_parse_failure (parse : String → Option Xml) (fs : FS)
    (input output s : String) (hin : fs input = some s) (hio : input ≠ output)
    (hparse : parse s = none) :
    create_word_from_x2doc parse fs input output output = none ∧
      ∀ p, p ≠ output → create_word_from_x2doc parse fs input output p = fs p := by
  unfold create_word_from_x2doc
  rw [hin]
  simp only [Option.isNone_some, Bool.false_eq_true, if_false]
  by_cases hout : (fs output).isSome
  · simp only [hout, if_true]
    have h1 : (if input = output then none else fs input) = some s := by
      rw [if_neg hio, hin]
    rw [h1]
    simp only [hparse, Option.none_bind]
    constructor
    · simp
    · intro p hp
      simp [hp]
  · simp only [hout, Bool.false_eq_true, if_false]
    rw [hin]
    simp only [hparse, Option.none_bind]
    constructor
    · exact Option.not_isSome_iff_eq_none.mp hout
    · intro p hp
      trivial

/-- C8, witness: the amended theorem at the concrete file system. -/
theorem c8_no_output_written_witness :
    c8fs "in.xml" = some "bad xml" ∧ "in.xml" ≠ "out.docx" ∧
      ((fun _ => none) : String → Option Xml) "bad xml" = none ∧
      (create_word_from_x2doc (fun _ => none) c8fs "in.xml" "out.docx" "out.docx" = none ∧
        ∀ p, p ≠ "out.docx" →
          create_word_from_x2doc (fun _ => none) c8fs "in.xml" "out.docx" p = c8fs p) :=
  ⟨rfl, by decide, rfl,
    c8_no_output_written_on_parse_failure (fun _ => none) c8fs "in.xml" "out.docx"
      "bad xml" rfl (by decide) rfl⟩

/-! ## Claim C9 (top-level element types) -/

/-- C9, counterexample: `Document.from_xml` reads only top-level `chapter`
children; a top-level `paragraph` child is not parsed into the element
list — the parsed document has no elements at all. -/
theorem c9_top_level_paragraph_dropped :
    documentFromXml
        (.elem "document" [("title", "T")] none [.elem "paragraph" [] (some "hi") []]) =
        some ⟨"T", []⟩ ∧
      some (⟨"T", []⟩ : Document) ≠ some (⟨"T", [.para "hi"]⟩ : Document) := by
  exact ⟨rfl, by decide⟩

/-- C9, amended: the tree-format document codec does not mirror the
Chapter recursion at top level: every element of any document parsed by
`Document.from_xml` is a Chapter (top-level `paragraph` and `table`
children are ignored). -/
theorem c9_parsed_top_level_elements_are_chapters (root : Xml) (d : Document)
    (h : documentFromXml root = some d) :
    ∀ e ∈ d.elements, e.isChapter = true := by
  unfold documentFromXml at h
  cases hc : chaptersFromXml (root.findall "chapter") with
  | none => rw [hc] at h; simp at h
  | some chs =>
    rw [hc] at h
    simp only [Option.some.injEq] at h
    subst h
    intro e he
    simp only [List.mem_map] at he
    obtain ⟨c, _, rfl⟩ := he
    rfl

/-- C9, witness: the amended theorem at a document with one chapter
child. -/
theorem c9_parsed_top_level_witness :
    documentFromXml
        (.elem "document" [("title", "T")] none
          [.elem "chapter" [("title", "C"), ("id", "x")] none []]) =
        some ⟨"T", [.chapter "C" "x" []]⟩ ∧
      ∀ e ∈ (⟨"T", [.chapter "C" "x" []]⟩ : Document).elements, e.isChapter = true :=
  ⟨rfl,
    c9_parsed_top_level_elements_are_chapters
      (.elem "document" [("title", "T")] none
        [.elem "chapter" [("title", "C"), ("id", "x")] none []])
      ⟨"T", [.chapter "C" "x" []]⟩ rfl⟩

/-! ## Claim C1 (tree-format round trip) -/

/-- `etNorm` leaves text that is not the empty string unchanged. -/
theorem normText_of_ne (t : Option String) (h : t ≠ some "") : normText t = t := by
  cases t with
  | none => rfl
  | some s =>
    have hs : s ≠ "" := by intro h0; exact h (by rw [h0])
    simp [normText, hs]

/-- Filtering by a tag shared by every element keeps the list. -/
theorem filter_tag_all {L : List Xml} {t : String} (h : ∀ c ∈ L, c.tag = t) :
    L.filter (fun c => c.tag == t) = L :=
  List.filter_eq_self.mpr fun c hc => by simp [h c hc]

/-- A serialized column survives the serialize/parse normalization when
neither its name nor its width is the empty string. -/
theorem column_roundtrip (nw : Option String × Option String)
    (hn : nw.1 ≠ some "") (hw : nw.2 ≠ some "") :
    ((etNorm (columnToXml nw)).text, (etNorm (columnToXml nw)).attr? "width") = nw := by
  obtain ⟨n, w⟩ := nw
  simp only [columnToXml, etNorm, etNormList]
  rw [normText_of_ne n hn]
  cases w with
  | none => simp [Xml.text, Xml.attr?, Xml.attrs, List.lookup]
  | some s =>
    have hs : s ≠ "" := by intro h0; exact hw (by rw [h0])
    simp [Xml.text, Xml.attr?, Xml.attrs, List.lookup, hs]

/-- The serialized column list parses back to the column list. -/
theorem columns_roundtrip (columns : List (Option String × Option String))
    (h : columns.all (fun nw => nw.1 != some "" && nw.2 != some "") = true) :
    ((etNormList (columns.map columnToXml)).map fun c => (c.text, c.attr? "width")) =
      columns := by
  induction columns with
  | nil => rfl
  | cons nw rest ih =>
    simp only [List.all_cons, Bool.and_eq_true, bne_iff_ne] at h
    simp only [List.map_cons, etNormList]
    rw [column_roundtrip nw h.1.1 h.1.2, ih h.2]

/-- A serialized cell's text parses back to the cell value (empty text
collapses to absent text and is read back as the empty string). -/
theorem cell_roundtrip (c : String) : (etNorm (cellToXml c)).text.getD "" = c := by
  by_cases hc : c = "" <;>
    simp [cellToXml, etNorm, etNormList, normText, Xml.text, hc]

/-- The serialized cells of one row parse back to the row. -/
theorem cells_roundtrip (r : List String) :
    ((etNormList (r.map cellToXml)).filter (fun x => x.tag == "cell")).map
        (fun c => c.text.getD "") = r := by
  induction r with
  | nil => rfl
  | cons c cs ih =>
    simp only [List.map_cons, etNormList]
    have htag : (etNorm (cellToXml c)).tag = "cell" := by
      simp [cellToXml, etNorm, Xml.tag]
    simp only [List.filter_cons, htag, List.map_cons, beq_self_eq_true, if_true]
    rw [cell_roundtrip c, ih]

/-- The serialized row list parses back to the row list. -/
theorem rows_roundtrip (rows : List (List String)) :
    ((etNormList (rows.map rowToXml)).filter (fun x => x.tag == "row")).map
        (fun r => (r.findall "cell").map fun c => c.text.getD "") = rows := by
  induction rows with
  | nil => rfl
  | cons r rs ih =>
    simp only [List.map_cons, etNormList]
    have htag : (etNorm (rowToXml r)).tag = "row" := by
      simp [rowToXml, etNorm, Xml.tag]
    simp only [List.filter_cons, htag, beq_self_eq_true, if_true]
    rw [List.map_cons, ih]
    have hfind : (etNorm (rowToXml r)).findall "cell" =
        (etNormList (r.map cellToXml)).filter (fun x => x.tag == "cell") := by
      simp [rowToXml, etNorm, Xml.findall, Xml.children]
    rw [hfind, cells_roundtrip r]

/-- Every serialized column carries the tag `column`. -/
theorem columnToXml_tags (columns : List (Option String × Option String)) :
    ∀ c ∈ etNormList (columns.map columnToXml), c.tag = "column" := by
  induction columns with
  | nil => intro c hc; simp [etNormList] at hc
  | cons nw rest ih =>
    intro c hc
    simp only [List.map_cons, etNormList, List.mem_cons] at hc
    rcases hc with rfl | hc
    · simp [columnToXml, etNorm, Xml.tag]
    · exact ih c hc

/-- Every serialized row carries the tag `row`. -/
theorem rowToXml_tags (rows : List (List String)) :
    ∀ c ∈ etNormList (rows.map rowToXml), c.tag = "row" := by
  induction rows with
  | nil => intro c hc; simp [etNormList] at hc
  | cons r rest ih =>
    intro c hc
    simp only [List.map_cons, etNormList, List.mem_cons] at hc
    rcases hc with rfl | hc
    · simp [rowToXml, etNorm, Xml.tag]
    · exact ih c hc

/-- A serialized table parses back to the table when no column has an
empty-string name or width. -/
theorem table_roundtrip (columns : List (Option String × Option String))
    (rows : List (List String))
    (h : columns.all (fun nw => nw.1 != some "" && nw.2 != some "") = true) :
    tableFromXml (etNorm (Elem.toXml (.table columns rows))) =
      some (.table columns rows) := by
  have hshape : etNorm (Elem.toXml (.table columns rows)) =
      .elem "table" [] none
        [.elem "columns" [] none (etNormList (columns.map columnToXml)),
         .elem "rows" [] none (etNormList (rows.map rowToXml))] := by
    simp [Elem.toXml, etNorm, etNormList, normText, columnsToXml, rowsToXml]
  rw [hshape]
  have hstep : tableFromXml
      (.elem "table" [] none
        [.elem "columns" [] none (etNormList (columns.map columnToXml)),
         .elem "rows" [] none (etNormList (rows.map rowToXml))]) =
      some (.table
        (((etNormList (columns.map columnToXml)).filter
            (fun c => c.tag == "column")).map (fun c => (c.text, c.attr? "width")))
        (((etNormList (rows.map rowToXml)).filter
            (fun c => c.tag == "row")).map
          (fun r => (r.findall "cell").map fun c => c.text.getD ""))) := rfl
  rw [hstep, filter_tag_all (columnToXml_tags columns), columns_roundtrip columns h,
    rows_roundtrip rows]

/-- A serialized paragraph parses back to the paragraph when its stored
text is stripped (as the `Paragraph` constructor guarantees). -/
theorem paragraph_roundtrip (t : String) (ht : pyStrip t = t) :
    paragraphFromXml (etNorm (Elem.toXml (.para t))) = .para t := by
  by_cases h0 : t = ""
  · subst h0; rfl
  · have hn : normText (some t) = some t := by simp [normText, h0]
    simp [Elem.toXml, etNorm, etNormList, paragraphFromXml, Xml.text, hn, ht]

/-- Serialized element lists parse back, by strong induction on size:
the children of a serialized chapter/document whose elements are all
`Elem.good` are dispatched by tag back to the original elements. -/
theorem elems_xml_roundtrip_aux :
    ∀ (n : Nat) (els : List Elem), sizeOf els ≤ n → elemsGood els = true →
      elemsFromXmlChildren (etNormList (elemsToXml els)) = some els := by
  intro n
  induction n with
  | zero =>
    intro els hsz _
    cases els <;> simp at hsz
  | succ n ih =>
    intro els hsz hg
    cases els with
    | nil => rfl
    | cons e es =>
      have hg' : e.good = true ∧ elemsGood es = true := by
        simp only [elemsGood, Bool.and_eq_true] at hg
        exact hg
      have hse : sizeOf es ≤ n := by
        have hspec := List.cons.sizeOf_spec e es
        omega
      simp only [elemsToXml, etNormList]
      cases e with
      | para t =>
        have ht : pyStrip t = t := by simpa [Elem.good] using hg'.1
        have htag : (etNorm (Elem.toXml (.para t))).tag = "paragraph" := by
          simp [Elem.toXml, etNorm, Xml.tag]
        simp only [elemsFromXmlChildren, htag, String.reduceEq, if_false, if_true,
          reduceIte]
        rw [ih es hse hg'.2, paragraph_roundtrip t ht]
      | table columns rows =>
        have hcols : columns.all (fun nw => nw.1 != some "" && nw.2 != some "") = true := by
          simpa [Elem.good] using hg'.1
        have htag : (etNorm (Elem.toXml (.table columns rows))).tag = "table" := by
          simp [Elem.toXml, etNorm, Xml.tag]
        simp only [elemsFromXmlChildren, htag, String.reduceEq, if_false, if_true,
          reduceIte]
        rw [table_roundtrip columns rows hcols, ih es hse hg'.2]
      | chapter t i els' =>
        have hgc : pyStrip t = t ∧ elemsGood els' = true := by
          have h' := hg'.1
          simp only [Elem.good, Bool.and_eq_true, beq_iff_eq] at h'
          exact h'
        have hsz' : sizeOf els' ≤ n := by
          have hspec := List.cons.sizeOf_spec (Elem.chapter t i els') es
          have hspec2 := Elem.chapter.sizeOf_spec t i els'
          omega
        have htag : (etNorm (Elem.toXml (.chapter t i els'))).tag = "chapter" := by
          simp [Elem.toXml, etNorm, Xml.tag]
        simp only [elemsFromXmlChildren, htag, String.reduceEq, if_true, reduceIte]
        have hshape : etNorm (Elem.toXml (.chapter t i els')) =
            .elem "chapter" [("title", t), ("id", i)] none
              (etNormList (elemsToXml els')) := by
          simp [Elem.toXml, etNorm, normText]
        rw [hshape]
        simp only [chapterFromXml]
        rw [ih els' hsz' hgc.2, ih es hse hg'.2]
        simp [List.lookup, Chapter.toElem, hgc.1]

/-- Serialized element lists parse back to the original elements. -/
theorem elems_xml_roundtrip (els : List Elem) (hg : elemsGood els = true) :
    elemsFromXmlChildren (etNormList (elemsToXml els)) = some els :=
  elems_xml_roundtrip_aux (sizeOf els) els (Nat.le_refl _) hg

/-- A serialized chapter parses back to the chapter when its title is
stripped and its elements are good. -/
theorem chapter_xml_roundtrip (title id_ : String) (els : List Elem)
    (ht : pyStrip title = title) (hg : elemsGood els = true) :
    chapterFromXml (etNorm (Elem.toXml (.chapter title id_ els))) =
      some ⟨title, id_, els⟩ := by
  have hshape : etNorm (Elem.toXml (.chapter title id_ els)) =
      .elem "chapter" [("title", title), ("id", id_)] none
        (etNormList (elemsToXml els)) := by
    simp [Elem.toXml, etNorm, normText]
  rw [hshape]
  simp only [chapterFromXml]
  rw [elems_xml_roundtrip els hg]
  simp [List.lookup, ht]

/-- The serialized elements of an all-chapter list all carry the tag
`chapter`. -/
theorem chapter_tags (els : List Elem) (hch : els.all Elem.isChapter = true) :
    ∀ c ∈ etNormList (elemsToXml els), c.tag = "chapter" := by
  induction els with
  | nil => intro c hc; simp [elemsToXml, etNormList] at hc
  | cons e es ih =>
    simp only [List.all_cons, Bool.and_eq_true] at hch
    intro c hc
    simp only [elemsToXml, etNormList, List.mem_cons] at hc
    rcases hc with rfl | hc
    · cases e with
      | para t => simp [Elem.isChapter] at hch
      | table _ _ => simp [Elem.isChapter] at hch
      | chapter t i els' => simp [Elem.toXml, etNorm, Xml.tag]
    · exact ih hch.2 c hc

/-- The `chapter`-children loop of `Document.from_xml` parses the
serialized chapters back, producing chapter records whose element views
are the original elements. -/
theorem chaptersFromXml_roundtrip (els : List Elem)
    (hch : els.all Elem.isChapter = true) (hg : elemsGood els = true) :
    ∃ chs : List Chapter, chaptersFromXml (etNormList (elemsToXml els)) = some chs ∧
      chs.map Chapter.toElem = els := by
  induction els with
  | nil => exact ⟨[], rfl, rfl⟩
  | cons e es ih =>
    simp only [List.all_cons, Bool.and_eq_true] at hch
    have hg' : e.good = true ∧ elemsGood es = true := by
      simp only [elemsGood, Bool.and_eq_true] at hg
      exact hg
    obtain ⟨chs, h1, h2⟩ := ih hch.2 hg'.2
    cases e with
    | para t => simp [Elem.isChapter] at hch
    | table _ _ => simp [Elem.isChapter] at hch
    | chapter t i els' =>
      have hgc : pyStrip t = t ∧ elemsGood els' = true := by
        have h' := hg'.1
        simp only [Elem.good, Bool.and_eq_true, beq_iff_eq] at h'
        exact h'
      refine ⟨⟨t, i, els'⟩ :: chs, ?_, ?_⟩
      · simp only [elemsToXml, etNormList, chaptersFromXml]
        rw [chapter_xml_roundtrip t i els' hgc.1 hgc.2, h1]
      · simp [Chapter.toElem, h2]

/-- C1, counterexample: a document with a top-level Paragraph element is
constructible by this model, but `Document.from_xml` reads only `chapter`
children of the root, so the round trip drops the paragraph and does not
restore the document. -/
theorem c1_roundtrip_counterexample :
    documentFromXml (etNorm (Document.toXml ⟨"T", [.para "hi"]⟩)) = some ⟨"T", []⟩ ∧
      (⟨"T", []⟩ : Document) ≠ ⟨"T", [.para "hi"]⟩ := by
  exact ⟨rfl, by decide⟩

/-- C1, amended: parsing the XML produced by serializing `d` (the
serialize/parse boundary of the external XML library modelled by
`etNorm`) restores `d` exactly for the round-trippable documents: title,
chapter titles and ids, paragraph texts already stripped (as the
constructors guarantee), every top-level element a Chapter, and no table
column with an empty-string name or width (those are not representable in
the XML format and collapse to absent values). -/
theorem c1_tree_roundtrip (d : Document) (h : d.roundTrippable = true) :
    documentFromXml (etNorm (Document.toXml d)) = some d := by
  obtain ⟨title, els⟩ := d
  unfold Document.roundTrippable at h
  simp only [Bool.and_eq_true, beq_iff_eq] at h
  obtain ⟨⟨ht, hch⟩, hg⟩ := h
  have hshape : etNorm (Document.toXml ⟨title, els⟩) =
      .elem "document" [("title", title)] none (etNormList (elemsToXml els)) := by
    simp [Document.toXml, etNorm, normText]
  rw [hshape]
  unfold documentFromXml
  have hfind : (Xml.elem "document" [("title", title)] none
      (etNormList (elemsToXml els))).findall "chapter" = etNormList (elemsToXml els) := by
    show (etNormList (elemsToXml els)).filter (fun c => c.tag == "chapter") = _
    exact filter_tag_all (chapter_tags els hch)
  rw [hfind]
  obtain ⟨chs, h1, h2⟩ := chaptersFromXml_roundtrip els hch hg
  simp only [h1]
  simp [Xml.attr?, Xml.attrs, List.lookup, ht, h2]

/-- C1, witness: the amended round trip at a concrete document with a
chapter containing a paragraph, a table and a subchapter. -/
theorem c1_tree_roundtrip_witness :
    (⟨"T", [.chapter "C" "x"
        [.para "Hi", .table [(some "n", some "50"), (none, none)] [["v"], []],
         .chapter "D" "y" []]]⟩ : Document).roundTrippable = true ∧
      documentFromXml (etNorm (Document.toXml
        ⟨"T", [.chapter "C" "x"
          [.para "Hi", .table [(some "n", some "50"), (none, none)] [["v"], []],
           .chapter "D" "y" []]]⟩)) =
        some ⟨"T", [.chapter "C" "x"
          [.para "Hi", .table [(some "n", some "50"), (none, none)] [["v"], []],
           .chapter "D" "y" []]]⟩ :=
  ⟨by decide, c1_tree_roundtrip _ (by decide)⟩

end X2doc
